import Mathlib

/-!
Verification development for the plx exercise trainer.

This file gives a shallow embedding, in Lean 4, of the parts of the Rust
source that the specification's claims are about:

* the Launcher Work variant (src/core/launcher/launcher.rs): translation of
  runner-level `RunEvent`s into outward `Event`s;
* the Worker thread body (src/core/work/worker.rs);
* app helpers (src/app/utils.rs): `current_exo`, `all_checks_passed`,
  `get_solution_file`;
* project state handling (src/models/project.rs): `resume`, `set_exo_state`,
  `set_exo_favorite`;
* check state creation (src/models/check_state.rs) and compiler selection
  (src/models/exo.rs).

Conventions of the embedding:

* Rust `usize` indices and ids are `Nat`.
* `std::path::PathBuf` is modelled abstractly by the two observations the
  embedded code makes of it: `to_str` (`some s` exactly when the path is
  valid UTF-8) and `extension` (the final extension when present and valid
  UTF-8, already composed with the `to_str` conversion).
* An mpsc `Sender` whose receiver may disconnect is modelled by a capacity
  `cap : Nat`: the n-th send (0-indexed) succeeds exactly when `n < cap`.
  Disconnection of an mpsc receiver is permanent, so "the first `cap` sends
  succeed, all later ones fail" captures every possible channel behaviour.
* A Rust out-of-bounds slice index (a panic) is modelled by `Option`:
  `none` marks the input on which the Rust code panics.
* File I/O (the persisted exo state file) is modelled by passing the
  current file content explicitly: `none` stands for a missing or
  unparsable file.
-/

/-- Model of `std::path::PathBuf`. `to_str` models `PathBuf::to_str`
(`some s` exactly when the path is valid UTF-8); `extension` models
`path.extension().and_then(|e| e.to_str())`. -/
structure PathBuf where
  to_str : Option String
  extension : Option String
deriving DecidableEq, Repr

/-- Runner-internal event vocabulary (src/core/runner/runner.rs, matched on
in launcher.rs). The exit payload of `ProcessEnd` is ignored by the
Launcher; it is modelled as an integer exit code. -/
inductive RunEvent where
  | ProcessCreationFailed (err : String)
  | ProcessCreated
  | ProcessEnd (exit : Int)
  | ProcessNewOutputLine (line : String)
deriving DecidableEq, Repr

/-- Outward, front-end-visible events (src/models/event.rs), restricted to
the run-related variants that the Launcher produces. -/
inductive Event where
  | RunStart (id : Nat)
  | RunEnd (id : Nat)
  | RunFail (id : Nat) (err : String)
  | RunOutputLine (id : Nat) (line : String)
deriving DecidableEq, Repr

/-- The id carried by an outward event (every `Event` variant built by the
Launcher carries its id as first field). -/
def Event.runId : Event → Nat
  | Event.RunStart i => i
  | Event.RunEnd i => i
  | Event.RunFail i _ => i
  | Event.RunOutputLine i _ => i

/-- Modelled from the spec: `Runner::new` (src/core/runner/runner.rs is not
part of the provided sources). Per §4.1 the Runner is configured with the
command and argument list it will spawn; `new` records exactly those. -/
structure Runner where
  command : String
  args : List String
deriving DecidableEq, Repr

def Runner.new (command : String) (args : List String) : Runner :=
  { command := command, args := args }

/-- Represents a Launcher Worker (launcher.rs): an id plus the underlying
Runner. -/
structure Launcher where
  id : Nat
  runner : Runner
deriving DecidableEq, Repr

/-- Embedding of `Launcher::new` (launcher.rs lines 25-34): converts the
command path to a UTF-8 string; on success builds the Runner from that
string and the argument list, otherwise returns `None`. -/
def Launcher.new (id : Nat) (command : PathBuf) (args : List String) :
    Option Launcher :=
  match command.to_str with
  | some cmd => some { id := id, runner := Runner.new cmd args }
  | none => none

/-- Whether a runner event is `ProcessCreationFailed` (the arm of the match
in `Launcher::run` that returns early). -/
def RunEvent.isCreationFail : RunEvent → Bool
  | RunEvent.ProcessCreationFailed _ => true
  | _ => false

/-- The per-event translation performed by the match inside `Launcher::run`:
`ProcessCreationFailed err ↦ RunFail(id, err)`, `ProcessCreated ↦
RunStart(id)`, `ProcessEnd(_) ↦ RunEnd(id)`, `ProcessNewOutputLine line ↦
RunOutputLine(id, line)`. -/
def translateRunEvent (id : Nat) : RunEvent → Event
  | RunEvent.ProcessCreationFailed err => Event.RunFail id err
  | RunEvent.ProcessCreated => Event.RunStart id
  | RunEvent.ProcessEnd _ => Event.RunEnd id
  | RunEvent.ProcessNewOutputLine line => Event.RunOutputLine id line

/-- Embedding of the body of `Launcher::run` (launcher.rs lines 43-63).

`evs` is the sequence of `RunEvent`s received from the runner channel, in
order (the channel closing after the last one makes `recv` fail and ends
the `while let` loop). `cap` models the outward `tx` channel: the n-th send
succeeds iff `n < cap` (the receiver disconnecting is permanent).

Returns the list of events successfully delivered on `tx` together with
the boolean return value of `run`:

* on `ProcessCreationFailed err` the code sends `RunFail(id, err)`
  discarding the send result (`let _ = tx.send(...)`) and returns `false`
  at once;
* on every other event it sends the translated event; if that send fails
  it breaks out of the loop and falls through to `return true`;
* when the runner channel is exhausted it returns `true`. -/
def launcherRun (id : Nat) : List RunEvent → Nat → List Event × Bool
  | [], _ => ([], true)
  | e :: rest, cap =>
    if e.isCreationFail then
      ((if 0 < cap then [translateRunEvent id e] else []), false)
    else if 0 < cap then
      let r := launcherRun id rest (cap - 1)
      (translateRunEvent id e :: r.1, r.2)
    else
      ([], true)

/-- Internal completion signal from a Worker thread to the dispatcher
(src/core/work/work_handler.rs, used in worker.rs). -/
inductive WorkEvent where
  | Done (id : Nat)
deriving DecidableEq, Repr

/-- One observable step of the thread body spawned by
`Worker::run_on_separate_thread`: either the boxed work ran (emitting
`events` on the outward channel and returning `result`), or a `WorkEvent`
was sent on the internal `work_tx` channel. -/
inductive ThreadStep where
  | workRan (events : List Event) (result : Bool)
  | sentDone (we : WorkEvent)
deriving DecidableEq, Repr

/-- Embedding of a `Worker` (worker.rs). The boxed `dyn Work` is modelled
by its behaviour when run: the outward events it emits and the boolean it
returns. The two channel senders and the cancellation flag are ambient in
the trace model. -/
structure Worker where
  id : Nat
  work : List Event × Bool
deriving DecidableEq, Repr

/-- Embedding of the thread body of `Worker::run_on_separate_thread`
(worker.rs lines 36-41) as the ordered trace of its two actions: it first
calls `self.work.run(self.tx, self.should_stop)` and then sends
`WorkEvent::Done(self.id)`, discarding both results. `self` is taken by
value in Rust, so the Worker is consumed; the trace is produced once. -/
def Worker.run_on_separate_thread (w : Worker) : List ThreadStep :=
  [ThreadStep.workRan w.work.1 w.work.2,
   ThreadStep.sentDone (WorkEvent.Done w.id)]

/-- Opaque structured difference between expected and actual output,
produced by the external diff collaborator (src/core/diff, outside the
provided sources); the core never inspects it, so its carrier is modelled
as a plain value. -/
structure Diff where
  rendered : String
deriving DecidableEq, Repr

/-- Represents the status of a check (check_state.rs). -/
inductive CheckStatus where
  | Passed
  | Failed (actual : String) (expected : String) (diff : Diff)
  | Checking
  | Running
  | RunFail (err : String)
  | Pending
deriving DecidableEq, Repr

/-- Assertion variant of a Check (src/models/check.rs is outside the
provided sources; the `Output {expected}` variant is taken from its uses in
the provided tests and from the spec's data model). -/
inductive CheckTest where
  | Output (expected : String)
deriving DecidableEq, Repr

/-- Immutable check specification: name, ordered arguments, assertion
(src/models/check.rs, from its uses in the provided sources). -/
structure Check where
  name : String
  args : List String
  test : CheckTest
deriving DecidableEq, Repr

/-- Handles the check and its current status (check_state.rs). The Rust
field is `Arc<Check>`; shared ownership is immaterial to the embedding, so
the Check is held directly. -/
structure CheckState where
  check : Check
  status : CheckStatus
deriving DecidableEq, Repr

/-- Embedding of `CheckState::new` (check_state.rs lines 23-30): wraps the
given check and starts in `Pending`. -/
def CheckState.new (check : Check) : CheckState :=
  { check := check, status := CheckStatus.Pending }

/-- Exercise progression state (src/models/exo_state.rs is outside the
provided sources; its variants `Todo`, `InProgress`, `Done` are taken from
their uses in the provided tests, with `Todo` the serde default). -/
inductive ExoState where
  | Todo
  | InProgress
  | Done
deriving DecidableEq, Repr

/-- Contains the exo state info that can be found in .exo-state.toml
(exo.rs lines 26-31). -/
structure ExoStateInfo where
  state : ExoState
  favorite : Bool
deriving DecidableEq, Repr

/-- The `Default` instance derived in Rust for `ExoStateInfo`: default
state `Todo`, not favorite. -/
def ExoStateInfo.defaultInfo : ExoStateInfo :=
  { state := ExoState.Todo, favorite := false }

/-- Compiler choice (src/core/compiler, outside the provided sources; the
two variants `Gcc` and `Gxx` are taken from their uses in exo.rs). -/
inductive Compiler where
  | Gcc
  | Gxx
deriving DecidableEq, Repr

/-- Represents a Plx Exo (exo.rs lines 33-43). -/
structure Exo where
  name : String
  instruction : Option String
  state : ExoState
  files : List PathBuf
  solutions : List PathBuf
  checks : List Check
  favorite : Bool
  folder : PathBuf
deriving DecidableEq, Repr

/-- The extension string the compiler-selection loop computes for one file:
`file.extension().unwrap_or_default().to_str().unwrap_or_default()`, with
both `unwrap_or_default` falls folded into `getD ""` on the modelled
extension. -/
def extOf (f : PathBuf) : String :=
  f.extension.getD ""

/-- Loop of `Exo::compiler` (exo.rs lines 190-206) over the remaining
files, carrying the `compiler` mutable accumulator: a `cpp` or `cc` file
selects `Gxx` and breaks; a `c` file sets the accumulator to `Gcc` and
continues; any other file leaves it unchanged. -/
def compilerLoop : List PathBuf → Option Compiler → Option Compiler
  | [], acc => acc
  | f :: rest, acc =>
    if extOf f = "cpp" ∨ extOf f = "cc" then some Compiler.Gxx
    else if extOf f = "c" then compilerLoop rest (some Compiler.Gcc)
    else compilerLoop rest acc

/-- Embedding of `Exo::compiler`: the loop starting from `None`. -/
def Exo.compiler (e : Exo) : Option Compiler :=
  compilerLoop e.files none

/-- Skill grouping exos (src/models/skill.rs is outside the provided
sources; its fields are taken from its uses in the provided sources). -/
structure Skill where
  name : String
  path : PathBuf
  exos : List Exo
deriving DecidableEq, Repr

/-- Persisted project cursor (project.rs lines 29-33). -/
structure ProjectState where
  curr_skill_idx : Nat
  curr_exo_idx : Nat
deriving DecidableEq, Repr

/-- Project: skills plus the persisted cursor (project.rs lines 22-27).
The `Arc` around the skill vector is immaterial to the embedding. -/
structure Project where
  name : String
  skills : List Skill
  state : ProjectState
  folder : PathBuf
deriving DecidableEq, Repr

/-- Embedding of `Project::resume` (project.rs lines 43-50): returns the
exo pointed to by the stored state when both stored indices are in bounds,
`none` otherwise. -/
def Project.resume (p : Project) : Option Exo :=
  if h : p.state.curr_skill_idx < p.skills.length then
    if h2 : p.state.curr_exo_idx <
        p.skills[p.state.curr_skill_idx].exos.length then
      some p.skills[p.state.curr_skill_idx].exos[p.state.curr_exo_idx]
    else
      none
  else
    none

/-- Embedding of `Project::read_exo_state_info` (project.rs lines 158-162).
The exo state file is modelled by its current content: `none` when missing
or unparsable, in which case `unwrap_or_default` yields the default info. -/
def Project.read_exo_state_info (file : Option ExoStateInfo) : ExoStateInfo :=
  file.getD ExoStateInfo.defaultInfo

/-- Embedding of `Project::save_exo_state` (project.rs lines 153-157): the
write either succeeds or is logged and dropped; the value persisted to the
file is the given info. -/
def Project.save_exo_state (info : ExoStateInfo) : ExoStateInfo :=
  info

/-- Embedding of `Project::set_exo_state` (project.rs lines 164-168): reads
the current state file, overwrites only the `state` field and saves. -/
def Project.set_exo_state (file : Option ExoStateInfo) (state : ExoState) :
    ExoStateInfo :=
  let info := Project.read_exo_state_info file
  Project.save_exo_state { info with state := state }

/-- Embedding of `Project::set_exo_favorite` (project.rs lines 170-174):
reads the current state file, overwrites only the `favorite` flag and
saves. -/
def Project.set_exo_favorite (file : Option ExoStateInfo) (is_favorite : Bool) :
    ExoStateInfo :=
  let info := Project.read_exo_state_info file
  Project.save_exo_state { info with favorite := is_favorite }

/-- The App state (src/app/app.rs is outside the provided sources); only
the `project` field is used by the embedded helpers of src/app/utils.rs. -/
structure App where
  project : Project
deriving DecidableEq, Repr

/-- Embedding of `App::current_exo` (utils.rs lines 10-13). The Rust code
indexes `skills[curr_skill_idx].exos[curr_exo_idx]` without bounds checks,
so an out-of-range stored index is a panic; `none` marks exactly those
panicking inputs. -/
def App.current_exo (a : App) : Option Exo :=
  (a.project.skills[a.project.state.curr_skill_idx]?).bind
    fun skill => skill.exos[a.project.state.curr_exo_idx]?

/-- Embedding of `App::all_checks_passed` (utils.rs lines 16-20): all
statuses equal `Passed`. -/
def App.all_checks_passed (checks : List CheckState) : Bool :=
  checks.all fun result => result.status == CheckStatus.Passed

/-- Embedding of `App::get_solution_file` (utils.rs lines 21-30): `Err ()`
when the index is out of range, otherwise the indexed solution path. -/
def App.get_solution_file (exo : Exo) (solution_idx : Nat) :
    Except Unit PathBuf :=
  if h : exo.solutions.length ≤ solution_idx then
    Except.error ()
  else
    Except.ok (exo.solutions.get ⟨solution_idx, Nat.lt_of_not_le h⟩)

/-! ### Helper lemmas -/

/-- The per-event translation always stamps the Launcher's own id. -/
theorem translateRunEvent_runId (id : Nat) (e : RunEvent) :
    (translateRunEvent id e).runId = id := by
  cases e <;> rfl

/-- Optional list indexing yields a value exactly when the index is in
bounds. -/
theorem isSome_list_lookup {α : Type} (l : List α) (i : Nat) :
    (l[i]?).isSome = true ↔ i < l.length := by
  by_cases h : i < l.length
  · simp [getElem?_pos l i h, h]
  · simp [getElem?_neg l i h, h]

/-- `Project.resume` written through optional lookup: the bounds-checked
double indexing equals `get?`-chaining. -/
theorem resume_eq_optional_lookup (p : Project) :
    p.resume = (p.skills[p.state.curr_skill_idx]?).bind
      (fun skill => skill.exos[p.state.curr_exo_idx]?) := by
  unfold Project.resume
  by_cases h : p.state.curr_skill_idx < p.skills.length
  · rw [dif_pos h, getElem?_pos p.skills _ h]
    by_cases h2 : p.state.curr_exo_idx <
        p.skills[p.state.curr_skill_idx].exos.length
    · rw [dif_pos h2]
      exact (getElem?_pos p.skills[p.state.curr_skill_idx].exos
        p.state.curr_exo_idx h2).symm
    · rw [dif_neg h2]
      exact (getElem?_neg p.skills[p.state.curr_skill_idx].exos
        p.state.curr_exo_idx h2).symm
  · rw [dif_neg h, getElem?_neg p.skills _ h]
    rfl

/-! ### Theorems for the claims -/

/-- C3: `all_checks_passed` is true iff every check state's status is
exactly `Passed`, and in particular it is true on the empty list. -/
theorem all_checks_passed_iff_all_passed :
    (∀ checks : List CheckState,
        (App.all_checks_passed checks = true ↔
          ∀ c ∈ checks, c.status = CheckStatus.Passed)) ∧
    App.all_checks_passed [] = true := by
  refine ⟨fun checks => ?_, rfl⟩
  simp [App.all_checks_passed, List.all_eq_true]

/-- C6: the thread body of `Worker::run_on_separate_thread` first runs the
boxed work and then sends `WorkEvent::Done` carrying the Worker's own id,
whatever events the work emitted and whichever boolean it returned. -/
theorem worker_thread_runs_then_sends_done
    (id : Nat) (events : List Event) (result : Bool) :
    Worker.run_on_separate_thread { id := id, work := (events, result) } =
      [ThreadStep.workRan events result,
       ThreadStep.sentDone (WorkEvent.Done id)] :=
  rfl

/-- C7: `CheckState::new` wraps the given check and starts in `Pending`. -/
theorem check_state_new_pending (check : Check) :
    (CheckState.new check).status = CheckStatus.Pending ∧
    (CheckState.new check).check = check :=
  ⟨rfl, rfl⟩

/-- C8: `set_exo_state` rewrites only the `state` field of the persisted
info, keeping the `favorite` flag read from the existing file, and
`set_exo_favorite` symmetrically rewrites only `favorite` keeping
`state`. -/
theorem set_exo_state_frame
    (file : Option ExoStateInfo) (s : ExoState) (b : Bool) :
    (Project.set_exo_state file s).state = s ∧
    (Project.set_exo_state file s).favorite =
      (Project.read_exo_state_info file).favorite ∧
    (Project.set_exo_favorite file b).favorite = b ∧
    (Project.set_exo_favorite file b).state =
      (Project.read_exo_state_info file).state :=
  ⟨rfl, rfl, rfl, rfl⟩

/-- C9: `Launcher::new` returns `None` exactly when the command path is
not valid UTF-8; otherwise it returns a Launcher whose runner is built
from that command string and the given argument list. -/
theorem launcher_new_none_iff_not_utf8
    (id : Nat) (command : PathBuf) (args : List String) :
    (Launcher.new id command args = none ↔ command.to_str = none) ∧
    (∀ cmd, command.to_str = some cmd →
        Launcher.new id command args =
          some { id := id, runner := Runner.new cmd args }) := by
  cases h : command.to_str <;> simp [Launcher.new, h]

/-- C9 witness: a UTF-8 command path yields a Launcher recording exactly
that command and argument list. -/
theorem launcher_new_none_iff_not_utf8_witness :
    Launcher.new 1 { to_str := some "a.out", extension := none } ["x"] =
      some { id := 1, runner := Runner.new "a.out" ["x"] } :=
  (launcher_new_none_iff_not_utf8 1
    { to_str := some "a.out", extension := none } ["x"]).2 "a.out" rfl

/-- A project whose persisted state points into an empty skill list: the
situation `resume` guards against (skills moved or deleted between runs). -/
def staleApp : App :=
  { project :=
      { name := "course"
        skills := []
        state := { curr_skill_idx := 0, curr_exo_idx := 0 }
        folder := { to_str := some "/course", extension := none } } }

/-- C4 counterexample: `App::current_exo` does not surface a typed failure
on an out-of-range stored index — it indexes the skill and exo vectors
unchecked, which in Rust is a panic (modelled by `none`): on a stored
project state pointing into an empty skill list it panics, refuting
"current_exo never panics for any stored project state". -/
theorem current_exo_panics_on_stale_state :
    App.current_exo staleApp = none :=
  rfl

/-- C4 (amended): `get_solution_file` returns `Err` exactly when the
solution index is out of range, and `resume` returns `Some` exactly when
both stored indices are in bounds (so `None` on any out-of-bounds stored
index); `current_exo`, by contrast, returns (without panicking) exactly
under the same in-bounds condition and panics otherwise. -/
theorem invalid_index_surfaced_typed (exo : Exo) (i : Nat) (p : Project)
    (a : App) :
    (App.get_solution_file exo i = Except.error () ↔
      exo.solutions.length ≤ i) ∧
    (p.resume.isSome ↔ ∃ skill,
      p.skills[p.state.curr_skill_idx]? = some skill ∧
      p.state.curr_exo_idx < skill.exos.length) ∧
    ((App.current_exo a).isSome ↔ ∃ skill,
      a.project.skills[a.project.state.curr_skill_idx]? = some skill ∧
      a.project.state.curr_exo_idx < skill.exos.length) := by
  refine ⟨?_, ?_, ?_⟩
  · unfold App.get_solution_file
    by_cases h : exo.solutions.length ≤ i
    · simp [h]
    · simp [h]
  · rw [resume_eq_optional_lookup]
    cases hs : p.skills[p.state.curr_skill_idx]? with
    | none => simp
    | some skill => simp [isSome_list_lookup]
  · unfold App.current_exo
    cases hs : a.project.skills[a.project.state.curr_skill_idx]? with
    | none => simp
    | some skill => simp [isSome_list_lookup]

/-- Characterization of the compiler-selection loop of `Exo::compiler`,
for any accumulator value: a `cpp`/`cc` file anywhere forces `Gxx`;
otherwise a `c` file forces `Gcc`; otherwise the accumulator survives. -/
theorem compilerLoop_spec (files : List PathBuf) (acc : Option Compiler) :
    ((∃ f ∈ files, extOf f = "cpp" ∨ extOf f = "cc") →
        compilerLoop files acc = some Compiler.Gxx) ∧
    ((∀ f ∈ files, ¬(extOf f = "cpp" ∨ extOf f = "cc")) →
      (∃ f ∈ files, extOf f = "c") →
        compilerLoop files acc = some Compiler.Gcc) ∧
    ((∀ f ∈ files, extOf f ≠ "cpp" ∧ extOf f ≠ "cc" ∧ extOf f ≠ "c") →
        compilerLoop files acc = acc) := by
  induction files generalizing acc with
  | nil => simp [compilerLoop]
  | cons f rest ih =>
    by_cases hx : extOf f = "cpp" ∨ extOf f = "cc"
    · refine ⟨fun _ => by simp [compilerLoop, hx], ?_, ?_⟩
      · intro hno _
        exact absurd hx (hno f (by simp))
      · intro hno
        rcases hno f (by simp) with ⟨h1, h2, -⟩
        rcases hx with hx | hx
        · exact absurd hx h1
        · exact absurd hx h2
    · by_cases hc : extOf f = "c"
      · have hstep : compilerLoop (f :: rest) acc =
            compilerLoop rest (some Compiler.Gcc) := by
          simp [compilerLoop, hx, hc]
        refine ⟨?_, ?_, ?_⟩
        · intro hex
          rcases hex with ⟨g, hg, hgx⟩
          rcases List.mem_cons.mp hg with rfl | hg
          · exact absurd hgx hx
          · exact hstep.trans ((ih (some Compiler.Gcc)).1 ⟨g, hg, hgx⟩)
        · intro hno _
          by_cases hrc : ∃ g ∈ rest, extOf g = "c"
          · exact hstep.trans ((ih (some Compiler.Gcc)).2.1
              (fun g hg => hno g (List.mem_cons_of_mem f hg)) hrc)
          · refine hstep.trans ((ih (some Compiler.Gcc)).2.2 fun g hg => ?_)
            have hgx := hno g (List.mem_cons_of_mem f hg)
            refine ⟨fun h => hgx (Or.inl h), fun h => hgx (Or.inr h),
              fun h => hrc ⟨g, hg, h⟩⟩
        · intro hno
          exact absurd hc (hno f (by simp)).2.2
      · have hstep : compilerLoop (f :: rest) acc = compilerLoop rest acc := by
          simp [compilerLoop, hx, hc]
        refine ⟨?_, ?_, ?_⟩
        · intro hex
          rcases hex with ⟨g, hg, hgx⟩
          rcases List.mem_cons.mp hg with rfl | hg
          · exact absurd hgx hx
          · exact hstep.trans ((ih acc).1 ⟨g, hg, hgx⟩)
        · intro hno hex
          rcases hex with ⟨g, hg, hgc⟩
          rcases List.mem_cons.mp hg with rfl | hg
          · exact absurd hgc hc
          · exact hstep.trans ((ih acc).2.1
              (fun g hg => hno g (List.mem_cons_of_mem f hg)) ⟨g, hg, hgc⟩)
        · intro hno
          exact hstep.trans ((ih acc).2.2
            fun g hg => hno g (List.mem_cons_of_mem f hg))

/-- C10: `Exo::compiler` selects `Gxx` when any file has extension `cpp`
or `cc` (a single C++ file overrides any number of C files), otherwise
`Gcc` when at least one file has extension `c`, otherwise no compiler. -/
theorem exo_compiler_selection (e : Exo) :
    ((∃ f ∈ e.files, extOf f = "cpp" ∨ extOf f = "cc") →
        e.compiler = some Compiler.Gxx) ∧
    ((∀ f ∈ e.files, ¬(extOf f = "cpp" ∨ extOf f = "cc")) →
      (∃ f ∈ e.files, extOf f = "c") →
        e.compiler = some Compiler.Gcc) ∧
    ((∀ f ∈ e.files, extOf f ≠ "cpp" ∧ extOf f ≠ "cc" ∧ extOf f ≠ "c") →
        e.compiler = none) :=
  compilerLoop_spec e.files none

/-- An exo holding one C file followed by one C++ file. -/
def mixedExo : Exo :=
  { name := "mixed"
    instruction := none
    state := ExoState.Todo
    files := [{ to_str := some "main.c", extension := some "c" },
              { to_str := some "extra.cpp", extension := some "cpp" }]
    solutions := []
    checks := []
    favorite := false
    folder := { to_str := some "/mixed", extension := none } }

/-- C10 witness: on an exo mixing one C file with one C++ file, the C++
file wins and `Gxx` is selected. -/
theorem exo_compiler_selection_witness :
    mixedExo.compiler = some Compiler.Gxx :=
  (exo_compiler_selection mixedExo).1
    ⟨{ to_str := some "extra.cpp", extension := some "cpp" }, by decide⟩

/-- C1: `Launcher::run` returns `false` exactly when the translation loop
actually received a `ProcessCreationFailed` event: there is a decomposition
of the received sequence with a creation failure whose whole non-failing
prefix was delivered (`pre.length ≤ cap`, the loop did not break early on a
closed outward channel first). In every other case — no creation failure in
the sequence, or the outward receiver gone before it is reached, or a
normal run whose runner channel closes — it returns `true`. -/
theorem launcher_run_false_iff (id : Nat) (evs : List RunEvent) (cap : Nat) :
    (launcherRun id evs cap).2 = false ↔
      ∃ pre err post,
        evs = pre ++ RunEvent.ProcessCreationFailed err :: post ∧
        (∀ e ∈ pre, e.isCreationFail = false) ∧
        pre.length ≤ cap := by
  induction evs generalizing cap with
  | nil =>
    refine iff_of_false (by simp [launcherRun]) ?_
    rintro ⟨pre, err, post, h, -, -⟩
    exact List.cons_ne_nil _ _ (List.append_eq_nil.mp h.symm).2
  | cons e rest ih =>
    by_cases hf : e.isCreationFail = true
    · obtain ⟨err, rfl⟩ : ∃ m, e = RunEvent.ProcessCreationFailed m := by
        cases e with
        | ProcessCreationFailed m => exact ⟨m, rfl⟩
        | ProcessCreated => simp [RunEvent.isCreationFail] at hf
        | ProcessEnd x => simp [RunEvent.isCreationFail] at hf
        | ProcessNewOutputLine l => simp [RunEvent.isCreationFail] at hf
      refine iff_of_true (by simp [launcherRun, RunEvent.isCreationFail]) ?_
      exact ⟨[], err, rest, rfl, by simp, Nat.zero_le _⟩
    · have hf0 : e.isCreationFail = false := Bool.eq_false_iff.mpr hf
      by_cases hc : 0 < cap
      · have hstep : (launcherRun id (e :: rest) cap).2 =
            (launcherRun id rest (cap - 1)).2 := by
          simp [launcherRun, hf0, hc]
        rw [hstep, ih (cap - 1)]
        constructor
        · rintro ⟨pre, err, post, rfl, hnf, hlen⟩
          refine ⟨e :: pre, err, post, rfl, ?_, ?_⟩
          · intro x hx
            rcases List.mem_cons.mp hx with rfl | hx
            · exact hf0
            · exact hnf x hx
          · simpa using Nat.add_le_of_le_sub hc hlen
        · rintro ⟨pre, err, post, heq, hnf, hlen⟩
          cases pre with
          | nil =>
            simp only [List.nil_append] at heq
            cases heq
            simp [RunEvent.isCreationFail] at hf0
          | cons p pre =>
            rw [List.cons_append] at heq
            injection heq with h1 h2
            subst h1
            exact ⟨pre, err, post, h2, fun x hx => hnf x (List.mem_cons_of_mem e hx),
              by simp at hlen; omega⟩
      · refine iff_of_false (by simp [launcherRun, hf0, hc]) ?_
        rintro ⟨pre, err, post, heq, hnf, hlen⟩
        have hpre : pre = [] := List.length_eq_zero.mp (by omega)
        subst hpre
        simp only [List.nil_append] at heq
        cases heq
        simp [RunEvent.isCreationFail] at hf0

/-- Healthy-channel run with no creation failure: every received event is
delivered, translated, and `run` returns `true`. -/
theorem launcherRun_no_fail (id : Nat) (evs : List RunEvent) (cap : Nat)
    (hcap : evs.length ≤ cap)
    (hnf : ∀ e ∈ evs, e.isCreationFail = false) :
    launcherRun id evs cap = (evs.map (translateRunEvent id), true) := by
  induction evs generalizing cap with
  | nil => simp [launcherRun]
  | cons e rest ih =>
    have hf : e.isCreationFail = false := hnf e (by simp)
    have hc : 0 < cap := by simp at hcap; omega
    have hrest : launcherRun id rest (cap - 1) =
        (rest.map (translateRunEvent id), true) := by
      refine ih (cap - 1) ?_ fun x hx => hnf x (List.mem_cons_of_mem e hx)
      simp at hcap; omega
    simp [launcherRun, hf, hc, hrest]

/-- Healthy-channel run hitting a creation failure: the non-failing prefix
is translated and delivered, then `RunFail` is emitted and `run` returns
`false`, whatever comes after the failure. -/
theorem launcherRun_creation_fail (id : Nat) (pre post : List RunEvent)
    (err : String) (cap : Nat) (hcap : pre.length < cap)
    (hnf : ∀ e ∈ pre, e.isCreationFail = false) :
    launcherRun id (pre ++ RunEvent.ProcessCreationFailed err :: post) cap =
      (pre.map (translateRunEvent id) ++ [Event.RunFail id err], false) := by
  induction pre generalizing cap with
  | nil =>
    have hc : 0 < cap := hcap
    simp [launcherRun, RunEvent.isCreationFail, hc, translateRunEvent]
  | cons e pre ih =>
    have hf : e.isCreationFail = false := hnf e (by simp)
    have hc : 0 < cap := by omega
    have hrest := ih (cap - 1) (by simp at hcap ⊢; omega)
      (fun x hx => hnf x (List.mem_cons_of_mem e hx))
    simp [launcherRun, hf, hc, hrest]

/-- C2: with the outward receiver alive for the whole run
(`evs.length ≤ cap`), `Launcher::run` translates the received runner
events one-to-one — `ProcessCreated ↦ RunStart(id)`, `ProcessEnd(_) ↦
RunEnd(id)`, `ProcessNewOutputLine(line) ↦ RunOutputLine(id, line)` — and
on a `ProcessCreationFailed(err)` it emits `RunFail(id, err)` and returns
`false` immediately, translating nothing that follows the failure. -/
theorem launcher_run_translates_one_to_one (id : Nat) (evs : List RunEvent)
    (cap : Nat) (hcap : evs.length ≤ cap) :
    ((∀ e ∈ evs, e.isCreationFail = false) →
        launcherRun id evs cap = (evs.map (translateRunEvent id), true)) ∧
    (∀ pre err post,
        evs = pre ++ RunEvent.ProcessCreationFailed err :: post →
        (∀ e ∈ pre, e.isCreationFail = false) →
        launcherRun id evs cap =
          (pre.map (translateRunEvent id) ++ [Event.RunFail id err], false)) := by
  constructor
  · exact launcherRun_no_fail id evs cap hcap
  · rintro pre err post rfl hnf
    refine launcherRun_creation_fail id pre post err cap ?_ hnf
    simp at hcap; omega

/-- C2 witness: a created process that ends, received over a healthy
channel, is translated one-to-one into `RunStart` then `RunEnd`. -/
theorem launcher_run_translates_one_to_one_witness :
    launcherRun 3 [RunEvent.ProcessCreated, RunEvent.ProcessEnd 0] 2 =
      ([Event.RunStart 3, Event.RunEnd 3], true) :=
  (launcher_run_translates_one_to_one 3
    [RunEvent.ProcessCreated, RunEvent.ProcessEnd 0] 2 (by decide)).1
    (by decide)

/-- C5: every event `Launcher::run` delivers on the outward channel carries
the Launcher's own id, for every received sequence and channel state. -/
theorem launcher_events_carry_own_id (id : Nat) (evs : List RunEvent)
    (cap : Nat) :
    ∀ ev ∈ (launcherRun id evs cap).1, ev.runId = id := by
  induction evs generalizing cap with
  | nil => simp [launcherRun]
  | cons e rest ih =>
    intro ev hev
    by_cases hf : e.isCreationFail = true
    · rw [show launcherRun id (e :: rest) cap =
          ((if 0 < cap then [translateRunEvent id e] else []), false) from by
        simp [launcherRun, hf]] at hev
      by_cases hc : 0 < cap
      · simp [hc] at hev
        rw [hev]
        exact translateRunEvent_runId id e
      · simp [hc] at hev
    · have hf0 : e.isCreationFail = false := Bool.eq_false_iff.mpr hf
      by_cases hc : 0 < cap
      · rw [show launcherRun id (e :: rest) cap =
            (translateRunEvent id e :: (launcherRun id rest (cap - 1)).1,
              (launcherRun id rest (cap - 1)).2) from by
          simp [launcherRun, hf0, hc]] at hev
        rcases List.mem_cons.mp hev with rfl | hev
        · exact translateRunEvent_runId id e
        · exact ih (cap - 1) ev hev
      · rw [show launcherRun id (e :: rest) cap = ([], true) from by
          simp [launcherRun, hf0, hc]] at hev
        simp at hev

/-- C5 witness: the single event delivered for a created process carries
the Launcher's id 7. -/
theorem launcher_events_carry_own_id_witness :
    (Event.RunStart 7).runId = 7 :=
  launcher_events_carry_own_id 7 [RunEvent.ProcessCreated] 1
    (Event.RunStart 7) (by decide)
